import Mathlib

/-!
Verification of the jsv CSV/JSON-Schema validator core.

Shallow embedding of `src/main.rs` (the `CsvValidator` struct, its `validate`
method, and the surrounding `execute` driver).  The embedding follows the
source line by line:

* `JVal` models `serde_json::Value`.  JSON numbers that Rust's serde_json
  would represent as `f64` are modelled as exact decimal pairs
  (mantissa, base-ten exponent); no claim in this development compares
  floating-point values, only integer and string results.
* `parseJson` models `serde_json::from_str::<Value>` on a single cell of
  text: optional surrounding whitespace, one JSON value, nothing else.
  The parser is fuel-indexed (the fuel bounds nesting depth and loop
  iterations; every recursive step consumes input, so the supplied fuel of
  `length + 2` is never exhausted on real inputs).
* `isStringField` models the `and_then` chain at main.rs lines 149-156.
* `coerceField` models the coercion at main.rs lines 159-166.
* `assembleRecord` models the per-field loop at main.rs lines 143-177,
  with `mapInsert` giving `HashMap::insert`'s replace semantics.
* `processRow`, `runAux`, `runValidate` model the record loop and the final
  `Ok`/`Err` result at main.rs lines 124-197; all `eprintln!` diagnostics
  are collected into a `Diag` trace.
-/

namespace Jsv

/-- Model of `serde_json::Value` restricted to what the program can
produce.  `float m e` stands for the decimal number `m * 10 ^ e`. -/
inductive JVal where
  | null : JVal
  | bool (b : Bool) : JVal
  | int (n : Int) : JVal
  | float (mantissa : Int) (exponent : Int) : JVal
  | str (s : String) : JVal
  | arr (items : List JVal) : JVal
  | obj (fields : List (String × JVal)) : JVal
deriving Repr

/-- JSON whitespace skipping (`serde_json` accepts space, tab, LF, CR). -/
def skipWs : List Char → List Char
  | [] => []
  | c :: cs =>
    if c = ' ' ∨ c = '\t' ∨ c = '\n' ∨ c = '\r' then skipWs cs else c :: cs

/-- Value of one hex digit, as used by `\uXXXX` escapes. -/
def hexVal (c : Char) : Option Nat :=
  if '0' ≤ c ∧ c ≤ '9' then some (c.toNat - 48)
  else if 'a' ≤ c ∧ c ≤ 'f' then some (c.toNat - 87)
  else if 'A' ≤ c ∧ c ≤ 'F' then some (c.toNat - 55)
  else none

/-- Four hex digits of a `\uXXXX` escape. -/
def hex4 (a b c d : Char) : Option Nat :=
  match hexVal a, hexVal b, hexVal c, hexVal d with
  | some x, some y, some z, some w => some (((x * 16 + y) * 16 + z) * 16 + w)
  | _, _, _, _ => none

/-- Single-character JSON string escapes. -/
def escChar (c : Char) : Option Char :=
  if c = '"' then some '"'
  else if c = '\\' then some '\\'
  else if c = '/' then some '/'
  else if c = 'b' then some (Char.ofNat 8)
  else if c = 'f' then some (Char.ofNat 12)
  else if c = 'n' then some (Char.ofNat 10)
  else if c = 'r' then some (Char.ofNat 13)
  else if c = 't' then some (Char.ofNat 9)
  else none

/-- Body of a JSON string after the opening quote: strict escapes, strict
surrogate pairing, raw control characters rejected — as in serde_json's
default `from_str` reader. -/
def parseStrAux : Nat → List Char → List Char → Option (String × List Char)
  | 0, _, _ => none
  | _, _, [] => none
  | fuel+1, acc, c :: rest =>
    if c = '"' then some (String.mk acc.reverse, rest)
    else if c = '\\' then
      match rest with
      | [] => none
      | e :: r2 =>
        if e = 'u' then
          match r2 with
          | h1 :: h2 :: h3 :: h4 :: r3 =>
            match hex4 h1 h2 h3 h4 with
            | none => none
            | some n =>
              if 0xD800 ≤ n ∧ n ≤ 0xDBFF then
                match r3 with
                | '\\' :: 'u' :: g1 :: g2 :: g3 :: g4 :: r4 =>
                  match hex4 g1 g2 g3 g4 with
                  | none => none
                  | some m =>
                    if 0xDC00 ≤ m ∧ m ≤ 0xDFFF then
                      parseStrAux fuel
                        (Char.ofNat (0x10000 + (n - 0xD800) * 0x400 + (m - 0xDC00)) :: acc) r4
                    else none
                | _ => none
              else if 0xDC00 ≤ n ∧ n ≤ 0xDFFF then none
              else parseStrAux fuel (Char.ofNat n :: acc) r3
          | _ => none
        else
          match escChar e with
          | none => none
          | some ec => parseStrAux fuel (ec :: acc) r2
    else if c.toNat < 32 then none
    else parseStrAux fuel (c :: acc) rest

/-- Numeric value of a digit string. -/
def digitsToNat (ds : List Char) : Nat :=
  ds.foldl (fun n c => n * 10 + (c.toNat - 48)) 0

/-- Optional fraction part: `none` when a dot is present without digits,
otherwise the fraction digits (possibly `[]`) and the remaining input. -/
def parseFrac : List Char → Option (List Char × List Char)
  | '.' :: rest =>
    let p := rest.span (fun c => c.isDigit)
    if p.1.isEmpty then none else some (p.1, p.2)
  | input => some ([], input)

/-- Optional exponent part: sign and digits (digits `[]` when absent). -/
def parseExpPart : List Char → Option ((Bool × List Char) × List Char)
  | [] => some ((false, []), [])
  | c :: rest =>
    if c = 'e' ∨ c = 'E' then
      match rest with
      | '+' :: r2 =>
        let p := r2.span (fun x => x.isDigit)
        if p.1.isEmpty then none else some ((false, p.1), p.2)
      | '-' :: r2 =>
        let p := r2.span (fun x => x.isDigit)
        if p.1.isEmpty then none else some ((true, p.1), p.2)
      | r2 =>
        let p := r2.span (fun x => x.isDigit)
        if p.1.isEmpty then none else some ((false, p.1), p.2)
    else some ((false, []), c :: rest)

/-- JSON number: optional minus, integer part without leading zeros,
optional fraction and exponent.  Plain integers within serde_json's
`u64`/`i64` ranges become `JVal.int`; everything else becomes the exact
decimal `JVal.float`. -/
def parseNum (input : List Char) : Option (JVal × List Char) :=
  let sp : Bool × List Char :=
    match input with
    | '-' :: rest => (true, rest)
    | _ => (false, input)
  let neg := sp.1
  match sp.2 with
  | [] => none
  | c :: cs =>
    if c.isDigit then
      let p := (c :: cs).span (fun x => x.isDigit)
      let ds := p.1
      if 1 < ds.length ∧ ds.head? = some '0' then none
      else
        match parseFrac p.2 with
        | none => none
        | some (fds, r3) =>
          match parseExpPart r3 with
          | none => none
          | some ((eNeg, eds), r4) =>
            let v :=
              if fds.isEmpty ∧ eds.isEmpty then
                let n := digitsToNat ds
                if (¬neg ∧ n < 2 ^ 64) ∨ (neg ∧ n ≤ 2 ^ 63) then
                  JVal.int (if neg then -(n : Int) else (n : Int))
                else JVal.float (if neg then -(n : Int) else (n : Int)) 0
              else
                let mNat := digitsToNat (ds ++ fds)
                let m : Int := if neg then -(mNat : Int) else (mNat : Int)
                let eMag : Int := digitsToNat eds
                JVal.float m ((if eNeg then -eMag else eMag) - (fds.length : Int))
            some (v, r4)
    else none

mutual

/-- One JSON value (after skipping leading whitespace), returning the
unconsumed remainder.  Fuel bounds nesting depth and aggregate loop
iterations. -/
def parseVal : Nat → List Char → Option (JVal × List Char)
  | 0, _ => none
  | fuel+1, input =>
    match skipWs input with
    | [] => none
    | c :: rest =>
      if c = '"' then
        (parseStrAux (rest.length + 1) [] rest).map (fun p => (JVal.str p.1, p.2))
      else if c = '[' then
        match skipWs rest with
        | c2 :: r2 => if c2 = ']' then some (JVal.arr [], r2) else parseArrItems fuel [] rest
        | [] => none
      else if c = '{' then
        match skipWs rest with
        | c2 :: r2 => if c2 = '}' then some (JVal.obj [], r2) else parseObjItems fuel [] rest
        | [] => none
      else if c = 't' then
        match rest with
        | 'r' :: 'u' :: 'e' :: r => some (JVal.bool true, r)
        | _ => none
      else if c = 'f' then
        match rest with
        | 'a' :: 'l' :: 's' :: 'e' :: r => some (JVal.bool false, r)
        | _ => none
      else if c = 'n' then
        match rest with
        | 'u' :: 'l' :: 'l' :: r => some (JVal.null, r)
        | _ => none
      else parseNum (c :: rest)

/-- Comma-separated array elements after `[` (nonempty case). -/
def parseArrItems : Nat → List JVal → List Char → Option (JVal × List Char)
  | 0, _, _ => none
  | fuel+1, acc, input =>
    match parseVal fuel input with
    | none => none
    | some (v, r) =>
      match skipWs r with
      | [] => none
      | c :: r2 =>
        if c = ',' then parseArrItems fuel (v :: acc) r2
        else if c = ']' then some (JVal.arr (v :: acc).reverse, r2)
        else none

/-- Comma-separated `"key": value` members after `{` (nonempty case). -/
def parseObjItems : Nat → List (String × JVal) → List Char → Option (JVal × List Char)
  | 0, _, _ => none
  | fuel+1, acc, input =>
    match skipWs input with
    | [] => none
    | c :: r =>
      if c = '"' then
        match parseStrAux (r.length + 1) [] r with
        | none => none
        | some (key, r2) =>
          match skipWs r2 with
          | [] => none
          | c2 :: r3 =>
            if c2 = ':' then
              match parseVal fuel r3 with
              | none => none
              | some (v, r4) =>
                match skipWs r4 with
                | [] => none
                | c3 :: r5 =>
                  if c3 = ',' then parseObjItems fuel ((key, v) :: acc) r5
                  else if c3 = '}' then some (JVal.obj ((key, v) :: acc).reverse, r5)
                  else none
            else none
      else none

end

/-- Model of `serde_json::from_str::<Value>` on a whole input string:
one value, with only whitespace allowed around it. -/
def parseJson (s : String) : Option JVal :=
  match parseVal (s.data.length + 2) s.data with
  | some (v, rest) => if (skipWs rest).isEmpty then some v else none
  | none => none

/-- A JSON object, as the underlying field list of `serde_json::Map`. -/
def JObj := List (String × JVal)

/-- `Map::get`: exact key lookup (main.rs uses `obj.get(header)`). -/
def objGet (m : JObj) (k : String) : Option JVal :=
  (m.find? (fun p => decide (p.1 = k))).map (fun p => p.2)

/-- `Value::as_object`. -/
def asObject : JVal → Option JObj
  | JVal.obj m => some m
  | _ => none

/-- `Value::as_str`. -/
def asStr : JVal → Option String
  | JVal.str s => some s
  | _ => none

/-- The `is_string` lookup chain of main.rs lines 149-156:
`schema.get("properties").and_then(as_object).and_then(get(header))
 .and_then(as_object).and_then(get("type")).and_then(as_str)
 .map(typ == "string").unwrap_or(false)`. -/
def isStringField (schemaObj : JObj) (header : String) : Bool :=
  ((((((objGet schemaObj "properties").bind asObject).bind
      (fun o => objGet o header)).bind asObject).bind
      (fun o => objGet o "type")).bind asStr).map
    (fun typ => decide (typ = "string")) |>.getD false

/-- The field coercion of main.rs lines 159-166: declared strings are
parsed as a quoted literal; otherwise try a bare JSON parse and fall back
to the quoted form (`serde_json::from_str(field).or_else(quoted)`). -/
def coerceField (isString : Bool) (field : String) : Option JVal :=
  if isString then parseJson ("\"" ++ field ++ "\"")
  else
    match parseJson field with
    | some v => some v
    | none => parseJson ("\"" ++ field ++ "\"")

/-- `HashMap::insert`: any previous binding of the key is replaced. -/
def mapInsert (m : JObj) (k : String) (v : JVal) : JObj :=
  m.filter (fun p => decide (p.1 ≠ k)) ++ [(k, v)]

/-- `HashMap::get`-style lookup in the assembled record. -/
def mapLookup (m : JObj) (k : String) : Option JVal :=
  (m.find? (fun p => decide (p.1 = k))).map (fun p => p.2)

/-- One `eprintln!` diagnostic of `CsvValidator::validate`, tagged by the
spot in the source that emits it. -/
inductive Diag where
  | recordError (index : Nat) (err : String) : Diag
  | fieldError (recordIndex fieldIndex : Nat) (field : String) : Diag
  | validationError (recordNumber : Nat) (messages : List String) : Diag
deriving Repr, DecidableEq

/-- The per-field loop of main.rs lines 144-177: walk the zipped
(header, cell) pairs with their field index, coerce each cell, emit a
field diagnostic and skip the field on failure, insert on success. -/
def assembleAux (so : JObj) (recIdx : Nat) :
    Nat → List (String × String) → JObj → JObj × List Diag
  | _, [], m => (m, [])
  | fi, (h, c) :: rest, m =>
    match coerceField (isStringField so h) c with
    | none =>
      let r := assembleAux so recIdx (fi + 1) rest m
      (r.1, Diag.fieldError recIdx fi c :: r.2)
    | some v => assembleAux so recIdx (fi + 1) rest (mapInsert m h v)

/-- Record assembly for one data row (main.rs lines 143-177):
`headers.iter().zip(record.iter()).enumerate()` feeding a fresh map. -/
def assembleRecord (so : JObj) (recIdx : Nat) (headers cells : List String) :
    JObj × List Diag :=
  assembleAux so recIdx 0 (headers.zip cells) []

/-- Specification-level view of one (header, cell) pair: the binding it
contributes when coercion succeeds. -/
def coercePair (so : JObj) (p : String × String) : Option (String × JVal) :=
  match coerceField (isStringField so p.1) p.2 with
  | none => none
  | some v => some (p.1, v)

/-- Left fold of insertions, the map part of assembly. -/
def buildMap (m : JObj) (ps : List (String × JVal)) : JObj :=
  ps.foldl (fun acc p => mapInsert acc p.1 p.2) m

/-- The assembled typed record of a row, as a map. -/
def assembleMap (so : JObj) (headers cells : List String) : JObj :=
  buildMap [] ((headers.zip cells).filterMap (coercePair so))

/-- The external schema validator interface of §4.4
(`jsonschema_valid::Config::validate`), taken as a parameter. -/
def Validator := JVal → Except (List String) Unit

/-- One iteration of the record loop (main.rs lines 132-192): a failed
raw read logs and skips; otherwise the row is assembled and validated,
incrementing exactly one of the two counters.  Returns the contribution
`(successes, errors, diagnostics)` of this row. -/
def processRow (v : Validator) (so : JObj) (headers : List String)
    (recIdx : Nat) (row : Except String (List String)) : Nat × Nat × List Diag :=
  match row with
  | Except.error e => (0, 0, [Diag.recordError recIdx e])
  | Except.ok cells =>
    let a := assembleRecord so recIdx headers cells
    match v (JVal.obj a.1) with
    | Except.ok _ => (1, 0, a.2)
    | Except.error msgs => (0, 1, a.2 ++ [Diag.validationError (recIdx + 1) msgs])

/-- The enumerated record loop, accumulating both counters and the
diagnostic trace in row order. -/
def runAux (v : Validator) (so : JObj) (headers : List String) :
    Nat → List (Except String (List String)) → Nat × Nat × List Diag
  | _, [] => (0, 0, [])
  | idx, r :: rs =>
    let p := processRow v so headers idx r
    let q := runAux v so headers (idx + 1) rs
    (p.1 + q.1, p.2.1 + q.2.1, p.2.2 ++ q.2.2)

/-- Final counters and diagnostics of a full pass (loop of main.rs
lines 132-193, starting from `enumerate`'s index 0). -/
def runCounts (v : Validator) (so : JObj) (headers : List String)
    (rows : List (Except String (List String))) : Nat × Nat × List Diag :=
  runAux v so headers 0 rows

/-- `CsvValidator::validate` (main.rs lines 124-197): the run-level
result of lines 195-196 paired with the emitted diagnostics. -/
def runValidate (v : Validator) (so : JObj) (headers : List String)
    (rows : List (Except String (List String))) : Except Nat Nat × List Diag :=
  let c := runCounts v so headers rows
  (if c.2.1 = 0 then Except.ok c.1 else Except.error c.2.1, c.2.2)

/-- A row that will be counted as a success: its read succeeded and the
validator accepts the assembled record. -/
def rowSucceeds (v : Validator) (so : JObj) (headers : List String) :
    Except String (List String) → Bool
  | Except.error _ => false
  | Except.ok cells =>
    match v (JVal.obj (assembleMap so headers cells)) with
    | Except.ok _ => true
    | Except.error _ => false

/-- A row that will be counted as a validation error. -/
def rowFails (v : Validator) (so : JObj) (headers : List String) :
    Except String (List String) → Bool
  | Except.error _ => false
  | Except.ok cells =>
    match v (JVal.obj (assembleMap so headers cells)) with
    | Except.ok _ => false
    | Except.error _ => true

/-- A row whose raw CSV read failed. -/
def rowReadFailed : Except String (List String) → Bool
  | Except.error _ => true
  | Except.ok _ => false

/-- Row delivery of the csv crate's reader as built at main.rs lines
125-126: `ReaderBuilder::new()` leaves the default `flexible = false`,
so `records()` yields a data row whose field count differs from the
header's as `Err(UnequalLengths)` instead of as parsed cells. -/
def readRow (headerLen : Nat) (cells : List String) : Except String (List String) :=
  if cells.length = headerLen then Except.ok cells
  else Except.error "UnequalLengths"

/-- Number of entries in the schema's `properties` object (the quantity
§4.3 of the spec compares with the header length). -/
def propCount (so : JObj) : Nat :=
  (((objGet so "properties").bind asObject).getD []).length

/-- Modelled from the spec (§4.1): the supported primitive field kinds.
The repository's own sources only call the external `jsonschema_valid`
crate (`SchemaConfig::from_schema` at main.rs line 57); the loader that
§4.1 specifies is not under src/, so it is modelled here from the spec's
words. -/
def supportedFieldTypes : List String :=
  ["string", "integer", "number", "boolean", "null"]

/-- Modelled from the spec (§4.1): schema loading over the declared
`(fieldName, type)` entries of `properties`.  It fails exactly when some
entry declares an unsupported kind, and the error aggregates every
offending entry, not just the first. -/
def loadSchemaTypes (props : List (String × String)) :
    Except (List (String × String)) (List (String × String)) :=
  match props.filter (fun p => decide (p.2 ∉ supportedFieldTypes)) with
  | [] => Except.ok props
  | bad => Except.error bad

/-- A schema object used as a concrete instance: two declared properties,
`name : string` and `id : integer`. -/
def soEx : JObj :=
  [("properties", JVal.obj
    [("name", JVal.obj [("type", JVal.str "string")]),
     ("id", JVal.obj [("type", JVal.str "integer")])])]

/-- A validator instance that accepts every record. -/
def okValidator : Validator := fun _ => Except.ok ()

/-! ## Assembly lemmas -/

theorem assembleAux_fst (so : JObj) (recIdx : Nat) :
    ∀ (pairs : List (String × String)) (fi : Nat) (m : JObj),
      (assembleAux so recIdx fi pairs m).1 = buildMap m (pairs.filterMap (coercePair so)) := by
  intro pairs
  induction pairs with
  | nil => intro fi m; rfl
  | cons p rest ih =>
    intro fi m
    obtain ⟨h, c⟩ := p
    simp only [assembleAux, List.filterMap_cons, coercePair]
    cases hc : coerceField (isStringField so h) c with
    | none => simpa using ih (fi + 1) m
    | some v => simpa [buildMap] using ih (fi + 1) (mapInsert m h v)

theorem assembleRecord_fst (so : JObj) (recIdx : Nat) (headers cells : List String) :
    (assembleRecord so recIdx headers cells).1 = assembleMap so headers cells :=
  assembleAux_fst so recIdx (headers.zip cells) 0 []

theorem find?_filter_ne (k k' : String) (hk : k' ≠ k) (m : JObj) :
    (m.filter (fun p => decide (p.1 ≠ k))).find? (fun p => decide (p.1 = k')) =
      m.find? (fun p => decide (p.1 = k')) := by
  induction m with
  | nil => rfl
  | cons q rest ih =>
    rw [List.filter_cons]
    by_cases hq : q.1 = k
    · rw [if_neg (by simp [hq])]
      rw [ih, List.find?_cons_of_neg]
      simp only [decide_eq_true_eq]
      intro hh
      exact hk ((hq ▸ hh : (k : String) = k')).symm
    · rw [if_pos (by simp [hq])]
      by_cases hq2 : q.1 = k'
      · rw [List.find?_cons_of_pos _ (by simp [hq2]), List.find?_cons_of_pos _ (by simp [hq2])]
      · rw [List.find?_cons_of_neg _ (by simp [hq2]), List.find?_cons_of_neg _ (by simp [hq2]), ih]

theorem mapLookup_mapInsert (m : JObj) (k k' : String) (v : JVal) :
    mapLookup (mapInsert m k v) k' = if k' = k then some v else mapLookup m k' := by
  unfold mapLookup mapInsert
  rw [List.find?_append]
  by_cases hk : k' = k
  · subst hk
    have hnone : (m.filter (fun p => decide (p.1 ≠ k'))).find? (fun p => decide (p.1 = k')) = none := by
      apply List.find?_eq_none.mpr
      intro p hp
      have h2 := (List.mem_filter.mp hp).2
      simp only [decide_eq_true_eq] at h2 ⊢
      exact h2
    rw [hnone, Option.none_or, List.find?_cons_of_pos _ (by simp), if_pos rfl]
    rfl
  · rw [find?_filter_ne k k' hk m, if_neg hk]
    have hone : List.find? (fun p => decide (p.1 = k')) [(k, v)] = none := by
      rw [List.find?_cons_of_neg _ (by simpa using fun hh => hk hh.symm)]
      rfl
    rw [hone, Option.or_none]

theorem mapLookup_buildMap (k : String) (ps : List (String × JVal)) :
    ∀ m : JObj,
      mapLookup (buildMap m ps) k =
        ((ps.reverse.find? (fun p => decide (p.1 = k))).map (fun p => p.2)).or (mapLookup m k) := by
  induction ps using List.reverseRecOn with
  | nil => intro m; rw [show buildMap m [] = m from rfl]; simp
  | append_singleton ps q ih =>
    intro m
    have hfold : buildMap m (ps ++ [q]) = mapInsert (buildMap m ps) q.1 q.2 := by
      simp [buildMap, List.foldl_append]
    rw [hfold, mapLookup_mapInsert, List.reverse_append]
    simp only [List.reverse_cons, List.reverse_nil, List.nil_append, List.singleton_append]
    by_cases hq : k = q.1
    · rw [if_pos hq, List.find?_cons_of_pos _ (by simp [hq.symm])]
      rfl
    · rw [if_neg hq, ih m, List.find?_cons_of_neg _ (by simpa using fun hh => hq hh.symm)]

theorem keys_nodup_mapInsert (m : JObj) (k : String) (v : JVal)
    (h : (m.map Prod.fst).Nodup) : ((mapInsert m k v).map Prod.fst).Nodup := by
  unfold mapInsert
  rw [List.map_append, List.nodup_append]
  refine ⟨?_, by simp, ?_⟩
  · exact ((List.filter_sublist m).map Prod.fst).nodup h
  · intro a ha
    simp only [List.map_cons, List.map_nil, List.mem_singleton]
    intro hak
    subst hak
    obtain ⟨p, hp, hpa⟩ := List.mem_map.mp ha
    have := (List.mem_filter.mp hp).2
    simp at this
    exact this (hpa ▸ rfl)

theorem keys_nodup_buildMap :
    ∀ (ps : List (String × JVal)) (m : JObj),
      (m.map Prod.fst).Nodup → ((buildMap m ps).map Prod.fst).Nodup := by
  intro ps
  induction ps with
  | nil => intro m h; exact h
  | cons p rest ih =>
    intro m h
    exact ih (mapInsert m p.1 p.2) (keys_nodup_mapInsert m p.1 p.2 h)

/-! ## Runner lemmas -/

theorem exceptCases {e a : Type} (x : Except e a) :
    (∃ u, x = Except.ok u) ∨ (∃ m, x = Except.error m) := by
  cases x with
  | ok u => exact Or.inl ⟨u, rfl⟩
  | error m => exact Or.inr ⟨m, rfl⟩

theorem processRow_succ_count (v : Validator) (so : JObj) (headers : List String)
    (recIdx : Nat) (row : Except String (List String)) :
    (processRow v so headers recIdx row).1 =
      if rowSucceeds v so headers row then 1 else 0 := by
  cases row with
  | error e => rfl
  | ok cells =>
    simp only [processRow, rowSucceeds, assembleRecord_fst]
    obtain ⟨u, hx⟩ | ⟨msgs, hx⟩ := exceptCases (v (JVal.obj (assembleMap so headers cells))) <;>
      simp only [hx] <;> simp

theorem processRow_err_count (v : Validator) (so : JObj) (headers : List String)
    (recIdx : Nat) (row : Except String (List String)) :
    (processRow v so headers recIdx row).2.1 =
      if rowFails v so headers row then 1 else 0 := by
  cases row with
  | error e => rfl
  | ok cells =>
    simp only [processRow, rowFails, assembleRecord_fst]
    obtain ⟨u, hx⟩ | ⟨msgs, hx⟩ := exceptCases (v (JVal.obj (assembleMap so headers cells))) <;>
      simp only [hx] <;> simp

theorem runAux_counts (v : Validator) (so : JObj) (headers : List String)
    (rows : List (Except String (List String))) :
    ∀ idx : Nat,
      (runAux v so headers idx rows).1 = rows.countP (rowSucceeds v so headers) ∧
      (runAux v so headers idx rows).2.1 = rows.countP (rowFails v so headers) := by
  induction rows with
  | nil => intro idx; exact ⟨rfl, rfl⟩
  | cons r rs ih =>
    intro idx
    obtain ⟨ihs, ihe⟩ := ih (idx + 1)
    constructor
    · show (processRow v so headers idx r).1 + (runAux v so headers (idx + 1) rs).1 = _
      rw [ihs, processRow_succ_count, List.countP_cons, Nat.add_comm]
    · show (processRow v so headers idx r).2.1 + (runAux v so headers (idx + 1) rs).2.1 = _
      rw [ihe, processRow_err_count, List.countP_cons, Nat.add_comm]

theorem runAux_diags_append (v : Validator) (so : JObj) (headers : List String)
    (l1 l2 : List (Except String (List String))) :
    ∀ idx : Nat,
      (runAux v so headers idx (l1 ++ l2)).2.2 =
        (runAux v so headers idx l1).2.2 ++ (runAux v so headers (idx + l1.length) l2).2.2 := by
  induction l1 with
  | nil => intro idx; simp [runAux]
  | cons r rs ih =>
    intro idx
    show (processRow v so headers idx r).2.2 ++ (runAux v so headers (idx + 1) (rs ++ l2)).2.2 = _
    rw [ih (idx + 1)]
    show _ = ((processRow v so headers idx r).2.2 ++ (runAux v so headers (idx + 1) rs).2.2) ++ _
    rw [List.append_assoc]
    have harith : idx + 1 + rs.length = idx + (r :: rs).length := by
      simp only [List.length_cons]
      omega
    rw [harith]

theorem counts_partition (v : Validator) (so : JObj) (headers : List String)
    (rows : List (Except String (List String))) :
    rows.countP (rowSucceeds v so headers) + rows.countP (rowFails v so headers) +
      rows.countP rowReadFailed = rows.length := by
  induction rows with
  | nil => rfl
  | cons r rs ih =>
    rw [List.countP_cons, List.countP_cons, List.countP_cons, List.length_cons]
    have hone : ((if rowSucceeds v so headers r = true then 1 else 0) +
        (if rowFails v so headers r = true then 1 else 0)) +
        (if rowReadFailed r = true then 1 else 0) = 1 := by
      cases r with
      | error e => simp [rowSucceeds, rowFails, rowReadFailed]
      | ok cells =>
        simp only [rowSucceeds, rowFails, rowReadFailed]
        obtain ⟨u, hx⟩ | ⟨m, hx⟩ := exceptCases (v (JVal.obj (assembleMap so headers cells))) <;>
          simp [hx]
    omega

/-! ## Parser shape lemmas -/

theorem skipWs_quote (r : List Char) : skipWs ('"' :: r) = '"' :: r := rfl

theorem parseVal_quote (n : Nat) (r : List Char) :
    parseVal (n + 1) ('"' :: r) =
      (parseStrAux (r.length + 1) [] r).map (fun p => (JVal.str p.1, p.2)) := rfl

theorem parseJson_quoted_str (f : String) (v : JVal)
    (h : parseJson ("\"" ++ f ++ "\"") = some v) : ∃ s, v = JVal.str s := by
  have hdata : ("\"" ++ f ++ "\"").data = '"' :: (f.data ++ ['"']) := by
    rw [String.data_append, String.data_append]
    rfl
  rw [parseJson, hdata] at h
  have hlen : ('"' :: (f.data ++ ['"'])).length + 2 = ('"' :: (f.data ++ ['"'])).length + 1 + 1 := rfl
  rw [hlen, parseVal_quote] at h
  cases hp : parseStrAux ((f.data ++ ['"']).length + 1) [] (f.data ++ ['"']) with
  | none =>
    rw [hp] at h
    simp at h
  | some p =>
    rw [hp] at h
    obtain ⟨pv, prest⟩ := p
    simp only [Option.map_some'] at h
    by_cases hws : (skipWs prest).isEmpty
    · refine ⟨pv, ?_⟩
      simp only [hws, if_pos] at h
      exact (Option.some.inj h).symm
    · simp [hws] at h

/-! ## List helpers -/

theorem filterMap_eraseIdx_of_none {α β : Type} (f : α → Option β) :
    ∀ (l : List α) (i : Nat) (x : α), l.get? i = some x → f x = none →
      (l.eraseIdx i).filterMap f = l.filterMap f := by
  intro l
  induction l with
  | nil => intro i x h; simp at h
  | cons a rest ih =>
    intro i x h hf
    cases i with
    | zero =>
      simp only [List.get?] at h
      have hax : a = x := Option.some.injEq _ _ ▸ h
      rw [List.eraseIdx, List.filterMap_cons, hax, hf]
    | succ j =>
      simp only [List.get?] at h
      rw [List.eraseIdx, List.filterMap_cons, List.filterMap_cons]
      cases f a with
      | none => exact ih j x h hf
      | some b => rw [ih j x h hf]

theorem assembleAux_diag_mem (so : JObj) (recIdx : Nat) :
    ∀ (pairs : List (String × String)) (j fi : Nat) (m : JObj) (h c : String),
      pairs.get? j = some (h, c) → coerceField (isStringField so h) c = none →
      Diag.fieldError recIdx (fi + j) c ∈ (assembleAux so recIdx fi pairs m).2 := by
  intro pairs
  induction pairs with
  | nil => intro j fi m h c hj; simp at hj
  | cons p rest ih =>
    intro j fi m h c hj hcoerce
    cases j with
    | zero =>
      simp only [List.get?] at hj
      have hp : p = (h, c) := Option.some.injEq _ _ ▸ hj
      subst hp
      rw [assembleAux, hcoerce]
      simp
    | succ j' =>
      simp only [List.get?] at hj
      obtain ⟨ph, pc⟩ := p
      rw [assembleAux]
      have harith : fi + (j' + 1) = (fi + 1) + j' := by omega
      cases hc2 : coerceField (isStringField so ph) pc with
      | none =>
        simp only []
        refine List.mem_cons_of_mem _ ?_
        rw [harith]
        exact ih j' (fi + 1) m h c hj hcoerce
      | some v =>
        simp only []
        rw [harith]
        exact ih j' (fi + 1) (mapInsert m ph v) h c hj hcoerce

/-! ## Claims -/

/-- C1: For every field whose declared type in the schema's properties is
"string", coercion wraps the raw cell text as a quoted literal and parses
it as exactly one string value, never attempting a numeric parse; in
particular coercing the text "0042" under a declared String type yields
the string value "0042", not the integer 42. -/
theorem C1_declared_string_coercion (so : JObj) (h f : String)
    (hs : isStringField so h = true) :
    coerceField (isStringField so h) f = parseJson ("\"" ++ f ++ "\"") ∧
    (∀ v, coerceField (isStringField so h) f = some v → ∃ s, v = JVal.str s) ∧
    coerceField (isStringField so h) "0042" = some (JVal.str "0042") := by
  rw [hs]
  refine ⟨rfl, ?_, rfl⟩
  intro v hv
  exact parseJson_quoted_str f v hv

/-- Witness for C1 at the schema `soEx`, header `name`, cell `0042`. -/
theorem C1_declared_string_coercion_witness :
    isStringField soEx "name" = true ∧
    (coerceField (isStringField soEx "name") "0042" = parseJson ("\"" ++ "0042" ++ "\"") ∧
     (∀ v, coerceField (isStringField soEx "name") "0042" = some v → ∃ s, v = JVal.str s) ∧
     coerceField (isStringField soEx "name") "0042" = some (JVal.str "0042")) :=
  ⟨rfl, C1_declared_string_coercion soEx "name" "0042" rfl⟩

/-- C2: For every field whose column name has no declared type in the
schema (or a declared non-string type), coercion first attempts to parse
the raw cell text as a bare JSON literal, and only if that parse fails
falls back to parsing it as a quoted string; coercing "Bobby" with no
declared type yields the string "Bobby", and coercing "42" yields the
integer 42. -/
theorem C2_untyped_coercion (so : JObj) (h f : String)
    (hs : isStringField so h = false) :
    (∀ v, parseJson f = some v → coerceField (isStringField so h) f = some v) ∧
    (parseJson f = none → coerceField (isStringField so h) f = parseJson ("\"" ++ f ++ "\"")) ∧
    coerceField (isStringField so h) "Bobby" = some (JVal.str "Bobby") ∧
    coerceField (isStringField so h) "42" = some (JVal.int 42) := by
  rw [hs]
  refine ⟨?_, ?_, rfl, rfl⟩
  · intro v hv
    simp [coerceField, hv]
  · intro hn
    simp [coerceField, hn]

/-- Witness for C2 at the schema `soEx` and the undeclared header `age`. -/
theorem C2_untyped_coercion_witness :
    isStringField soEx "age" = false ∧
    ((∀ v, parseJson "42" = some v → coerceField (isStringField soEx "age") "42" = some v) ∧
     (parseJson "42" = none →
       coerceField (isStringField soEx "age") "42" = parseJson ("\"" ++ "42" ++ "\"")) ∧
     coerceField (isStringField soEx "age") "Bobby" = some (JVal.str "Bobby") ∧
     coerceField (isStringField soEx "age") "42" = some (JVal.int 42)) :=
  ⟨rfl, C2_untyped_coercion soEx "age" "42" rfl⟩

/-- C3: For every cell for which both the literal parse and the
quoted-string fallback fail, the field is omitted from the assembled
typed record (the record equals the one assembled with that pair absent,
never a default or null placeholder), a per-field diagnostic is reported,
and the record with that field absent is still submitted to the schema
validator (the row still counts as exactly one success or one validation
error). -/
theorem C3_failed_field_omitted (v : Validator) (so : JObj) (headers cells : List String)
    (recIdx i : Nat) (h c : String)
    (hget : (headers.zip cells).get? i = some (h, c))
    (hfail : coerceField (isStringField so h) c = none) :
    (assembleRecord so recIdx headers cells).1 =
      buildMap [] (((headers.zip cells).eraseIdx i).filterMap (coercePair so)) ∧
    Diag.fieldError recIdx i c ∈ (assembleRecord so recIdx headers cells).2 ∧
    (processRow v so headers recIdx (Except.ok cells)).1 +
      (processRow v so headers recIdx (Except.ok cells)).2.1 = 1 := by
  refine ⟨?_, ?_, ?_⟩
  · rw [assembleRecord_fst]
    unfold assembleMap
    rw [filterMap_eraseIdx_of_none (coercePair so) _ i (h, c) hget
      (by simp [coercePair, hfail])]
  · have hm := assembleAux_diag_mem so recIdx (headers.zip cells) i 0 [] h c hget hfail
    simpa using hm
  · rw [processRow_succ_count, processRow_err_count]
    simp only [rowSucceeds, rowFails]
    obtain ⟨u, hx⟩ | ⟨m, hx⟩ := exceptCases (v (JVal.obj (assembleMap so headers cells))) <;>
      simp [hx]

/-- Witness for C3: the cell text consisting of one double-quote character
fails both parses under header `a` (undeclared in `soEx`). -/
theorem C3_failed_field_omitted_witness :
    ((["a"].zip ["\""]).get? 0 = some ("a", "\"")) ∧
    coerceField (isStringField soEx "a") "\"" = none ∧
    ((assembleRecord soEx 0 ["a"] ["\""]).1 =
      buildMap [] (((["a"].zip ["\""]).eraseIdx 0).filterMap (coercePair soEx)) ∧
     Diag.fieldError 0 0 "\"" ∈ (assembleRecord soEx 0 ["a"] ["\""]).2 ∧
     (processRow okValidator soEx ["a"] 0 (Except.ok ["\""])).1 +
       (processRow okValidator soEx ["a"] 0 (Except.ok ["\""])).2.1 = 1) :=
  ⟨rfl, rfl, C3_failed_field_omitted okValidator soEx ["a"] ["\""] 0 0 "a" "\"" rfl rfl⟩

/-- C4: For any schema whose properties declare a type outside the
supported primitive set, loading fails and the failure names every
offending field with its type in one aggregated report; schemas with only
supported types load successfully.  (Spec-modelled: the loader itself is
the external `jsonschema_valid` crate, not under src/; see
`loadSchemaTypes`.) -/
theorem C4_schema_load (props : List (String × String)) :
    ((∀ p ∈ props, p.2 ∈ supportedFieldTypes) →
      loadSchemaTypes props = Except.ok props) ∧
    (∀ q ∈ props, q.2 ∉ supportedFieldTypes →
      ∃ bad, loadSchemaTypes props = Except.error bad ∧ bad ≠ [] ∧
        (∀ p ∈ props, p.2 ∉ supportedFieldTypes → p ∈ bad) ∧
        (∀ p ∈ bad, p ∈ props ∧ p.2 ∉ supportedFieldTypes)) := by
  constructor
  · intro hall
    have hnil : props.filter (fun p => decide (p.2 ∉ supportedFieldTypes)) = [] := by
      apply List.filter_eq_nil_iff.mpr
      intro p hp
      simp [hall p hp]
    unfold loadSchemaTypes
    rw [hnil]
  · intro q hq hqbad
    have hqmem : q ∈ props.filter (fun p => decide (p.2 ∉ supportedFieldTypes)) :=
      List.mem_filter.mpr ⟨hq, by simp [hqbad]⟩
    refine ⟨props.filter (fun p => decide (p.2 ∉ supportedFieldTypes)), ?_, ?_, ?_, ?_⟩
    · cases hf : props.filter (fun p => decide (p.2 ∉ supportedFieldTypes)) with
      | nil => rw [hf] at hqmem; exact absurd hqmem (List.not_mem_nil q)
      | cons b bs => unfold loadSchemaTypes; rw [hf]
    · intro h0
      rw [h0] at hqmem
      exact absurd hqmem (List.not_mem_nil q)
    · intro p hp hbad
      exact List.mem_filter.mpr ⟨hp, by simp [hbad]⟩
    · intro p hp
      have hm := List.mem_filter.mp hp
      exact ⟨hm.1, by simpa using hm.2⟩

/-- Witness for C4: a clean schema loads; a schema declaring `object` and
`array` kinds is rejected with both offenders aggregated. -/
theorem C4_schema_load_witness :
    loadSchemaTypes [("id", "integer"), ("name", "string")] =
      Except.ok [("id", "integer"), ("name", "string")] ∧
    (∃ bad, loadSchemaTypes [("a", "object"), ("b", "string"), ("c", "array")] =
        Except.error bad ∧ bad ≠ [] ∧
      (∀ p ∈ [("a", "object"), ("b", "string"), ("c", "array")],
        p.2 ∉ supportedFieldTypes → p ∈ bad) ∧
      (∀ p ∈ bad, p ∈ [("a", "object"), ("b", "string"), ("c", "array")] ∧
        p.2 ∉ supportedFieldTypes)) :=
  ⟨(C4_schema_load [("id", "integer"), ("name", "string")]).1 (by decide),
   (C4_schema_load [("a", "object"), ("b", "string"), ("c", "array")]).2
     ("a", "object") (by decide) (by decide)⟩

/-- C5: For every finite input source, the run-level result is
`Ok(successCount)` exactly when `errorCount = 0` and `Err(errorCount)`
otherwise, where the two counters count the accepted and the rejected
rows of the pass. -/
theorem C5_run_result (v : Validator) (so : JObj) (headers : List String)
    (rows : List (Except String (List String))) :
    (runValidate v so headers rows).1 =
      if rows.countP (rowFails v so headers) = 0
      then Except.ok (rows.countP (rowSucceeds v so headers))
      else Except.error (rows.countP (rowFails v so headers)) := by
  obtain ⟨hs, he⟩ := runAux_counts v so headers rows 0
  show (if (runAux v so headers 0 rows).2.1 = 0
        then Except.ok (runAux v so headers 0 rows).1
        else Except.error (runAux v so headers 0 rows).2.1) = _
  rw [hs, he]

/-- C6 counterexample: with the two-property schema `soEx` and a
one-column header, the lengths mismatch and yet a run over an empty row
list emits no diagnostic at all — the program has no warning for this
situation (it aborts nothing, but it also never warns). -/
theorem C6_counterexample :
    (["name"] : List String).length ≠ propCount soEx ∧
    runValidate okValidator soEx ["name"] [] = (Except.ok 0, ([] : List Diag)) :=
  ⟨by decide, rfl⟩

/-- C6 (amended): whenever the header length differs from the number of
entries in the schema's properties, the run does not abort — every row is
still processed, each contributing to exactly one of the success, error
or skipped-read counts — but no mismatch warning is emitted (a run over
no rows emits nothing). -/
theorem C6_no_mismatch_warning (v : Validator) (so : JObj) (headers : List String)
    (rows : List (Except String (List String)))
    (_hmis : headers.length ≠ propCount so) :
    (runCounts v so headers rows).1 + (runCounts v so headers rows).2.1 +
      rows.countP rowReadFailed = rows.length ∧
    runCounts v so headers [] = (0, 0, ([] : List Diag)) := by
  obtain ⟨hs, he⟩ := runAux_counts v so headers rows 0
  refine ⟨?_, rfl⟩
  show (runAux v so headers 0 rows).1 + (runAux v so headers 0 rows).2.1 +
    rows.countP rowReadFailed = rows.length
  rw [hs, he]
  exact counts_partition v so headers rows

/-- Witness for the amended C6 at a concrete mismatched header. -/
theorem C6_no_mismatch_warning_witness :
    (["name"] : List String).length ≠ propCount soEx ∧
    ((runCounts okValidator soEx ["name"] [Except.ok ["Alice"]]).1 +
       (runCounts okValidator soEx ["name"] [Except.ok ["Alice"]]).2.1 +
       ([Except.ok ["Alice"]] : List (Except String (List String))).countP rowReadFailed =
       ([Except.ok ["Alice"]] : List (Except String (List String))).length ∧
     runCounts okValidator soEx ["name"] [] = (0, 0, ([] : List Diag))) :=
  ⟨by decide, C6_no_mismatch_warning okValidator soEx ["name"] [Except.ok ["Alice"]] (by decide)⟩

/-- C7: a row whose raw read failed is logged with its row index and
error, then skipped: it changes neither the success count nor the error
count (the counts equal those of the run without it), and the trace
contains its record-error diagnostic. -/
theorem C7_read_failure_skipped (v : Validator) (so : JObj) (headers : List String)
    (pre post : List (Except String (List String))) (e : String) :
    (runCounts v so headers (pre ++ Except.error e :: post)).1 =
      (runCounts v so headers (pre ++ post)).1 ∧
    (runCounts v so headers (pre ++ Except.error e :: post)).2.1 =
      (runCounts v so headers (pre ++ post)).2.1 ∧
    Diag.recordError pre.length e ∈
      (runCounts v so headers (pre ++ Except.error e :: post)).2.2 := by
  have hcount : ∀ p : Except String (List String) → Bool, p (Except.error e) = false →
      (pre ++ Except.error e :: post).countP p = (pre ++ post).countP p := by
    intro p hp
    rw [List.countP_append, List.countP_cons, hp, List.countP_append]
    simp
  obtain ⟨hs1, he1⟩ := runAux_counts v so headers (pre ++ Except.error e :: post) 0
  obtain ⟨hs2, he2⟩ := runAux_counts v so headers (pre ++ post) 0
  refine ⟨?_, ?_, ?_⟩
  · show (runAux v so headers 0 (pre ++ Except.error e :: post)).1 =
      (runAux v so headers 0 (pre ++ post)).1
    rw [hs1, hs2, hcount _ rfl]
  · show (runAux v so headers 0 (pre ++ Except.error e :: post)).2.1 =
      (runAux v so headers 0 (pre ++ post)).2.1
    rw [he1, he2, hcount _ rfl]
  · show Diag.recordError pre.length e ∈
      (runAux v so headers 0 (pre ++ Except.error e :: post)).2.2
    rw [runAux_diags_append v so headers pre (Except.error e :: post) 0, Nat.zero_add]
    apply List.mem_append_right
    show Diag.recordError pre.length e ∈
      (processRow v so headers pre.length (Except.error e)).2.2 ++
      (runAux v so headers (pre.length + 1) post).2.2
    exact List.mem_append_left _ (List.mem_singleton.mpr rfl)

/-- C8 counterexample: a data row whose cell count differs from the
header's is never assembled.  The csv reader (default
`flexible = false`) delivers it as a read error, and the run over that
delivered row skips it: zero successes, zero validation errors, only a
record-error diagnostic — no positional zipping takes place. -/
theorem C8_counterexample :
    (["Alice"] : List String).length ≠ (["name", "id"] : List String).length ∧
    readRow (["name", "id"] : List String).length ["Alice"] =
      Except.error "UnequalLengths" ∧
    runCounts okValidator soEx ["name", "id"]
        [readRow (["name", "id"] : List String).length ["Alice"]] =
      (0, 0, [Diag.recordError 0 "UnequalLengths"]) :=
  ⟨by decide, rfl, rfl⟩

/-- C8 (amended): for every data row whose cell count differs from the
header's, no fatal error occurs, but the row is never assembled: the
reader delivers it as a read error, which is logged with the row index
and skipped, leaving both counters equal to those of the run without
that row. -/
theorem C8_ragged_row_skipped (v : Validator) (so : JObj) (headers cells : List String)
    (pre post : List (Except String (List String)))
    (hne : cells.length ≠ headers.length) :
    readRow headers.length cells = Except.error "UnequalLengths" ∧
    (runCounts v so headers (pre ++ readRow headers.length cells :: post)).1 =
      (runCounts v so headers (pre ++ post)).1 ∧
    (runCounts v so headers (pre ++ readRow headers.length cells :: post)).2.1 =
      (runCounts v so headers (pre ++ post)).2.1 ∧
    Diag.recordError pre.length "UnequalLengths" ∈
      (runCounts v so headers (pre ++ readRow headers.length cells :: post)).2.2 := by
  have hread : readRow headers.length cells = Except.error "UnequalLengths" := by
    unfold readRow
    rw [if_neg hne]
  rw [hread]
  have hcount : ∀ p : Except String (List String) → Bool,
      p (Except.error "UnequalLengths") = false →
      (pre ++ Except.error "UnequalLengths" :: post).countP p = (pre ++ post).countP p := by
    intro p hp
    rw [List.countP_append, List.countP_cons, hp, List.countP_append]
    simp
  obtain ⟨hs1, he1⟩ :=
    runAux_counts v so headers (pre ++ Except.error "UnequalLengths" :: post) 0
  obtain ⟨hs2, he2⟩ := runAux_counts v so headers (pre ++ post) 0
  refine ⟨rfl, ?_, ?_, ?_⟩
  · show (runAux v so headers 0 (pre ++ Except.error "UnequalLengths" :: post)).1 =
      (runAux v so headers 0 (pre ++ post)).1
    rw [hs1, hs2, hcount _ rfl]
  · show (runAux v so headers 0 (pre ++ Except.error "UnequalLengths" :: post)).2.1 =
      (runAux v so headers 0 (pre ++ post)).2.1
    rw [he1, he2, hcount _ rfl]
  · show Diag.recordError pre.length "UnequalLengths" ∈
      (runAux v so headers 0 (pre ++ Except.error "UnequalLengths" :: post)).2.2
    rw [runAux_diags_append v so headers pre (Except.error "UnequalLengths" :: post) 0,
      Nat.zero_add]
    apply List.mem_append_right
    show Diag.recordError pre.length "UnequalLengths" ∈
      (processRow v so headers pre.length (Except.error "UnequalLengths")).2.2 ++
      (runAux v so headers (pre.length + 1) post).2.2
    exact List.mem_append_left _ (List.mem_singleton.mpr rfl)

/-- Witness for the amended C8: a one-cell row under a two-column header,
alone in the source. -/
theorem C8_ragged_row_skipped_witness :
    (["Alice"] : List String).length ≠ (["name", "id"] : List String).length ∧
    (readRow (["name", "id"] : List String).length ["Alice"] =
       Except.error "UnequalLengths" ∧
     (runCounts okValidator soEx ["name", "id"]
         ([] ++ readRow (["name", "id"] : List String).length ["Alice"] :: [])).1 =
       (runCounts okValidator soEx ["name", "id"] ([] ++ [])).1 ∧
     (runCounts okValidator soEx ["name", "id"]
         ([] ++ readRow (["name", "id"] : List String).length ["Alice"] :: [])).2.1 =
       (runCounts okValidator soEx ["name", "id"] ([] ++ [])).2.1 ∧
     Diag.recordError ([] : List (Except String (List String))).length "UnequalLengths" ∈
       (runCounts okValidator soEx ["name", "id"]
         ([] ++ readRow (["name", "id"] : List String).length ["Alice"] :: [])).2.2) :=
  ⟨by decide, C8_ragged_row_skipped okValidator soEx ["name", "id"] ["Alice"] [] [] (by decide)⟩

/-- C9: validation is deterministic — two passes over the same schema,
header and row sequence produce identical counters, identical run-level
results, and identical diagnostic content. -/
theorem C9_deterministic (v : Validator) (so : JObj) (headers : List String)
    (rows1 rows2 : List (Except String (List String))) (h : rows1 = rows2) :
    runCounts v so headers rows1 = runCounts v so headers rows2 ∧
    runValidate v so headers rows1 = runValidate v so headers rows2 := by
  subst h
  exact ⟨rfl, rfl⟩

/-- Witness for C9 at a concrete schema, header and row list. -/
theorem C9_deterministic_witness :
    ([Except.ok ["Alice"]] : List (Except String (List String))) = [Except.ok ["Alice"]] ∧
    (runCounts okValidator soEx ["name"] [Except.ok ["Alice"]] =
       runCounts okValidator soEx ["name"] [Except.ok ["Alice"]] ∧
     runValidate okValidator soEx ["name"] [Except.ok ["Alice"]] =
       runValidate okValidator soEx ["name"] [Except.ok ["Alice"]]) :=
  ⟨rfl, C9_deterministic okValidator soEx ["name"] [Except.ok ["Alice"]] [Except.ok ["Alice"]] rfl⟩

/-- C10: when the header repeats a field name, the assembled record maps
that name to the coerced value of the rightmost column (in header order)
whose coercion succeeded — later successful insertions overwrite earlier
ones — and the assembled record holds at most one value per name. -/
theorem C10_rightmost_wins (so : JObj) (headers cells : List String) (name : String) :
    mapLookup (assembleMap so headers cells) name =
      (((headers.zip cells).filterMap (coercePair so)).reverse.find?
        (fun p => decide (p.1 = name))).map (fun p => p.2) ∧
    ((assembleMap so headers cells).map Prod.fst).Nodup := by
  constructor
  · exact (mapLookup_buildMap name ((headers.zip cells).filterMap (coercePair so)) []).trans
      Option.or_none
  · exact keys_nodup_buildMap ((headers.zip cells).filterMap (coercePair so)) [] (by simp)

end Jsv
